import Mathlib

/-!
# camelotgo: option composition and command construction

A shallow embedding of `camelot.go`, the typed wrapper that builds the
argument list of the external `camelot` command-line program.

Conventions of the embedding:

* a Go `string` is a Lean `String`, a Go `[]string` is a `List String`;
* a functional option `func() []string` is a function `Unit → List String`;
* `for _, option := range options { acc = append(acc, option()...) }` is a
  left fold that appends `option ()` to the accumulator;
* `exec.Command(name, arg...)` builds a `Cmd` record; running it
  (`cmd.CombinedOutput()`) is the business of the operating system and is
  taken as a parameter `CombinedOutput : Cmd → R`;
* the builder is embedded a second time with slices as headers over backing
  arrays in a memory (`Heap`, `Slice`, `go_append`, `MemCamelot`), to follow
  what the nested `append` calls write; it is proved to build the same
  commands as the builder on values.
-/

namespace Camelotgo

/-! ## The standard-library functions the source calls -/

/-- The command record of `os/exec`: `exec.Command(name, arg...)` stores the
program name in `Path` and `name` followed by the arguments in `Args`. -/
structure Cmd where
  Path : String
  Args : List String
  deriving DecidableEq, Repr

/-- Go `exec.Command(name, arg...)`: `Cmd{Path: name, Args: append([]string{name}, arg...)}`. -/
def exec_Command (name : String) (arg : List String) : Cmd :=
  { Path := name, Args := name :: arg }

/-- Go `strconv.Itoa`: the base-10 rendering of an integer, with a leading
`-` for a negative one. -/
def strconv_Itoa (i : Int) : String :=
  match i with
  | Int.ofNat n => Nat.repr n
  | Int.negSucc n => "-" ++ Nat.repr (n + 1)

/-- The loop of Go `strings.Join` after the first element:
`for _, s := range elems[1:] { b.WriteString(sep); b.WriteString(s) }`. -/
def strings_Join_loop (sep : String) (b : String) : List String → String
  | [] => b
  | s :: rest => strings_Join_loop sep ((b ++ sep) ++ s) rest

/-- Go `strings.Join(elems, sep)`: `""` for no element, the element itself
for one, otherwise the first element followed by `sep` and the next element,
for each further element in turn. -/
def strings_Join (elems : List String) (sep : String) : String :=
  match elems with
  | [] => ""
  | [e] => e
  | e :: rest => strings_Join_loop sep e rest

/-! ## The data model -/

/-- Go `type Camelot struct { globalOptions []string }`. -/
structure Camelot where
  globalOptions : List String
  deriving DecidableEq, Repr

/-- Go `type GlobalOption func() []string`. -/
abbrev GlobalOption := Unit → List String

/-- Go `type LatticeOption func() []string`. -/
abbrev LatticeOption := Unit → List String

/-- Go `type StreamOption func() []string`. -/
abbrev StreamOption := Unit → List String

/-- Go `type CopyTextOption string`. -/
abbrev CopyTextOption := String

/-- Go `type ShiftTextOption string`. -/
abbrev ShiftTextOption := String

/-- Go `type LatticePlotTypeOption string`. -/
abbrev LatticePlotTypeOption := String

/-- Go `type StreamPlotTypeOption string`. -/
abbrev StreamPlotTypeOption := String

/-! ## The builder -/

/-- Go `NewCamelot(options ...GlobalOption)`: starts from the nil slice and
appends the tokens of each option in turn. -/
def NewCamelot (options : List GlobalOption) : Camelot :=
  let globalOptions : List String :=
    options.foldl (fun globalOptions option => globalOptions ++ option ()) []
  { globalOptions := globalOptions }

/-- Go `(c Camelot) Exec()`: `exec.Command("camelot", c.globalOptions...)`,
then `cmd.CombinedOutput()`. -/
def Camelot.Exec {R : Type} (CombinedOutput : Cmd → R) (c : Camelot) : R :=
  let cmd := exec_Command "camelot" c.globalOptions
  CombinedOutput cmd

/-- Go `(c Camelot) Lattice(inputFile, options...)`. -/
def Camelot.Lattice {R : Type} (CombinedOutput : Cmd → R) (c : Camelot)
    (inputFile : String) (options : List LatticeOption) : R :=
  let latticeOptions : List String :=
    options.foldl (fun latticeOptions option => latticeOptions ++ option ()) []
  let cmd := exec_Command "camelot"
    (((c.globalOptions ++ ["lattice"]) ++ latticeOptions) ++ [inputFile])
  CombinedOutput cmd

/-- Go `(c Camelot) Stream(inputFile, options...)`. -/
def Camelot.Stream {R : Type} (CombinedOutput : Cmd → R) (c : Camelot)
    (inputFile : String) (options : List StreamOption) : R :=
  let streamOptions : List String :=
    options.foldl (fun streamOptions option => streamOptions ++ option ()) []
  let cmd := exec_Command "camelot"
    (((c.globalOptions ++ ["stream"]) ++ streamOptions) ++ [inputFile])
  CombinedOutput cmd

/-! ## The global options -/

/-- Go `Version()`. -/
def Version : GlobalOption := fun _ => ["--help"]

/-- Go `Quiet(o string)`. -/
def Quiet (o : String) : GlobalOption := fun _ => ["--quiet", o]

/-- Go `Pages(o string)`. -/
def Pages (o : String) : GlobalOption := fun _ => ["--pages", o]

/-- Go `Password(o string)`. -/
def Password (o : String) : GlobalOption := fun _ => ["--password", o]

/-- Go `Output(o string)`. -/
def Output (o : String) : GlobalOption := fun _ => ["--output", o]

/-- Go `Format(o string)`. -/
def Format (o : String) : GlobalOption := fun _ => ["--format", o]

/-- Go `Zip()`. -/
def Zip : GlobalOption := fun _ => ["--zip"]

/-- Go `SplitText()`. -/
def SplitText : GlobalOption := fun _ => ["--split_text"]

/-- Go `FlagSize(o int)`. -/
def FlagSize (o : Int) : GlobalOption := fun _ => ["--flag_size", strconv_Itoa o]

/-- Go `StripText(o string)`. -/
def StripText (o : String) : GlobalOption := fun _ => ["--strip_text", o]

/-- Go `Margins(o float64)`. The type `float64` and the rendering
`strconv.FormatFloat(o, 'f', -1, 64)` are parameters. -/
def Margins {float64 : Type} (FormatFloat : float64 → String) (o : float64) : GlobalOption :=
  fun _ => ["--margins", FormatFloat o]

/-- Go `Help()`. -/
def Help : GlobalOption := fun _ => ["--help"]

/-! ## The lattice options -/

/-- Go `LatticeTableRegions(o string)`. -/
def LatticeTableRegions (o : String) : LatticeOption := fun _ => ["--table_regions", o]

/-- Go `LatticeTableAreas(o string)`. -/
def LatticeTableAreas (o : String) : LatticeOption := fun _ => ["--table_areas", o]

/-- Go `ProcessingBackground()`. -/
def ProcessingBackground : LatticeOption := fun _ => ["--processing_background"]

/-- Go `LineScale(o int)`. -/
def LineScale (o : Int) : LatticeOption := fun _ => ["--line_scale", strconv_Itoa o]

/-- Go `const CopyTextHorizontal = "h"`. -/
def CopyTextHorizontal : String := "h"

/-- Go `const CopyTextVertical = "v"`. -/
def CopyTextVertical : String := "v"

/-- Go `CopyText(o CopyTextOption)`. -/
def CopyText (o : CopyTextOption) : LatticeOption := fun _ => ["--copy_text", o]

/-- Go `const ShiftTextLeft = "l"`. -/
def ShiftTextLeft : String := "l"

/-- Go `const ShiftTextTop = "t"`. -/
def ShiftTextTop : String := "t"

/-- Go `const ShiftTextRight = "r"`. -/
def ShiftTextRight : String := "r"

/-- Go `const ShiftTextBottom = "b"`. -/
def ShiftTextBottom : String := "b"

/-- Go `ShiftText(o []ShiftTextOption)`: converts each element to a string
(`options[i] = string(option)`) and joins them with `","`. -/
def ShiftText (o : List ShiftTextOption) : LatticeOption := fun _ =>
  let options : List String := o.map (fun option => option)
  ["--shift_text", strings_Join options ","]

/-- Go `LineTolerance(o int)`. -/
def LineTolerance (o : Int) : LatticeOption := fun _ => ["--line_tol", strconv_Itoa o]

/-- Go `JointTolerance(o int)`. -/
def JointTolerance (o : Int) : LatticeOption := fun _ => ["--joint_tol", strconv_Itoa o]

/-- Go `ThresholdBlocksize(o int)`. -/
def ThresholdBlocksize (o : Int) : LatticeOption := fun _ =>
  ["--threshold_blocksize", strconv_Itoa o]

/-- Go `ThresholdConstant(o int)`. -/
def ThresholdConstant (o : Int) : LatticeOption := fun _ =>
  ["--threshold_constant", strconv_Itoa o]

/-- Go `Iterations(o int)`. -/
def Iterations (o : Int) : LatticeOption := fun _ => ["--iterations", strconv_Itoa o]

/-- Go `Resolution(o int)`. -/
def Resolution (o : Int) : LatticeOption := fun _ => ["--resolution", strconv_Itoa o]

/-- Go `const LatticePlotTypeText = "text"`. -/
def LatticePlotTypeText : String := "text"

/-- Go `const LatticePlotTypeGrid = "grid"`. -/
def LatticePlotTypeGrid : String := "grid"

/-- Go `const LatticePlotTypeContour = "contour"`. -/
def LatticePlotTypeContour : String := "contour"

/-- Go `const LatticePlotTypeJoint = "joint"`. -/
def LatticePlotTypeJoint : String := "joint"

/-- Go `const LatticePlotTypeLine = "line"`. -/
def LatticePlotTypeLine : String := "line"

/-- Go `LatticePlotType(o LatticePlotTypeOption)`. -/
def LatticePlotType (o : LatticePlotTypeOption) : LatticeOption := fun _ => ["--plot_type", o]

/-- Go `LatticeHelp()`. -/
def LatticeHelp : LatticeOption := fun _ => ["--help"]

/-! ## The stream options -/

/-- Go `StreamTableRegions(o string)`. -/
def StreamTableRegions (o : String) : StreamOption := fun _ => ["--table_regions", o]

/-- Go `StreamTableAreas(o string)`. -/
def StreamTableAreas (o : String) : StreamOption := fun _ => ["--table_areas", o]

/-- Go `Columns(o string)`. -/
def Columns (o : String) : StreamOption := fun _ => ["--columns", o]

/-- Go `EdgeTolerance(o int)`. -/
def EdgeTolerance (o : Int) : StreamOption := fun _ => ["--edge_tol", strconv_Itoa o]

/-- Go `RowTolerance(o int)`. -/
def RowTolerance (o : Int) : StreamOption := fun _ => ["--row_tol", strconv_Itoa o]

/-- Go `ColumnTolerance(o int)`. -/
def ColumnTolerance (o : Int) : StreamOption := fun _ => ["--column_tol", strconv_Itoa o]

/-- Go `const StreamPlotTypeText = "text"`. -/
def StreamPlotTypeText : String := "text"

/-- Go `const StreamPlotTypeGrid = "grid"`. -/
def StreamPlotTypeGrid : String := "grid"

/-- Go `const StreamPlotTypeContour = "contour"`. -/
def StreamPlotTypeContour : String := "contour"

/-- Go `const StreamPlotTypeTextEdge = "textedge"`. -/
def StreamPlotTypeTextEdge : String := "textedge"

/-- Go `StreamPlotType(o StreamPlotTypeOption)`. -/
def StreamPlotType (o : StreamPlotTypeOption) : StreamOption := fun _ => ["--plot_type", o]

/-- Go `StreamHelp()`. -/
def StreamHelp : StreamOption := fun _ => ["--help"]

/-! ## What the usage texts in the source document -/

/-- The usage comment of `NewCamelot`: `--version  Show the version and exit.` -/
def usageVersionFlag : String := "--version"

/-- The usage comment of `NewCamelot`: `--help  Show this message and exit.` -/
def usageHelpFlag : String := "--help"

/-- The usage comment of `Lattice`: `-back, --process_background  Process background lines.` -/
def usageProcessBackgroundFlag : String := "--process_background"

/-- The usage comment of `NewCamelot`: `-f, --format [csv|excel|html|json|markdown|sqlite]`. -/
def usageFormatChoices : List String := ["csv", "excel", "html", "json", "markdown", "sqlite"]

/-- The usage comment of `Lattice`: `-copy, --copy_text [h|v]`, the two
`CopyText...` constants. -/
def usageCopyTextChoices : List String := [CopyTextHorizontal, CopyTextVertical]

/-- The usage comment of `Lattice`: `-plot, --plot_type [text|grid|contour|joint|line]`,
the five `LatticePlotType...` constants. -/
def usageLatticePlotTypeChoices : List String :=
  [LatticePlotTypeText, LatticePlotTypeGrid, LatticePlotTypeContour, LatticePlotTypeJoint,
    LatticePlotTypeLine]

/-- The usage comment of `Stream`: `-plot, --plot_type [text|grid|contour|textedge]`,
the four `StreamPlotType...` constants. -/
def usageStreamPlotTypeChoices : List String :=
  [StreamPlotTypeText, StreamPlotTypeGrid, StreamPlotTypeContour, StreamPlotTypeTextEdge]

/-! ## The specification's wording -/

/-- The specification's `o1() ++ ... ++ on()`: the tokens of each option, in
the order of the options. -/
def flattenSpec : List (Unit → List String) → List String
  | [] => []
  | o :: os => o () ++ flattenSpec os

/-- The specification's "elements joined with `,` in the order supplied". -/
def joinSpec (sep : String) : List String → String
  | [] => ""
  | [e] => e
  | e :: rest => e ++ sep ++ joinSpec sep rest

/-- The specification's value of a string of decimal digits, read from the
most significant digit. -/
def decimalValueSpec (cs : List Char) : Nat :=
  cs.foldl (fun acc c => 10 * acc + (c.toNat - 48)) 0

/-- The specification's reading of an unsigned decimal numeral: at least one
character, all of them digits. -/
def parseDigitsSpec (cs : List Char) : Option Nat :=
  if cs ≠ [] ∧ cs.all Char.isDigit = true then some (decimalValueSpec cs) else none

/-- The specification's "parsing the value token as a decimal integer": an
optional leading `-`, then an unsigned decimal numeral. -/
def parseDecimalSpec (s : String) : Option Int :=
  if s.data.head? = some '-' then
    (parseDigitsSpec s.data.tail).map (fun (v : Nat) => -(Int.ofNat v))
  else
    (parseDigitsSpec s.data).map (fun (v : Nat) => Int.ofNat v)

/-- The specification's "canonical base-10 rendering of `n`": a leading `-`
exactly for a negative `n`, then the digits of the absolute value, at least
one, without a leading zero unless the numeral is `0` itself. -/
def CanonicalDecimalSpec (n : Int) (s : String) : Prop :=
  ∃ ds : List Char, s.data = (if n < 0 then '-' :: ds else ds) ∧ ds ≠ []
    ∧ (∀ c ∈ ds, c.isDigit = true) ∧ (ds.head? = some '0' → ds = ['0'])
    ∧ decimalValueSpec ds = n.natAbs

/-- The specification's "splitting on `,`", on characters: the segments
between the commas, in order; a text without a comma is its only segment, the
empty text included. -/
def splitCommaChars : List Char → List (List Char)
  | [] => [[]]
  | c :: cs =>
    if c = ',' then [] :: splitCommaChars cs
    else
      match splitCommaChars cs with
      | [] => [[c]]
      | w :: ws => (c :: w) :: ws

/-- The specification's "splitting the token on `,`", as Go
`strings.Split(s, ",")` does. -/
def splitCommaSpec (s : String) : List String :=
  (splitCommaChars s.data).map String.mk

/-! ## The catalog of option constructors -/

/-- A call of one of the twelve `GlobalOption` constructors of the source,
with its argument. -/
inductive GlobalCall (float64 : Type) where
  | Version
  | Quiet (o : String)
  | Pages (o : String)
  | Password (o : String)
  | Output (o : String)
  | Format (o : String)
  | Zip
  | SplitText
  | FlagSize (o : Int)
  | StripText (o : String)
  | Margins (o : float64)
  | Help

/-- A call of one of the fourteen `LatticeOption` constructors of the source,
with its argument. -/
inductive LatticeCall where
  | LatticeTableRegions (o : String)
  | LatticeTableAreas (o : String)
  | ProcessingBackground
  | LineScale (o : Int)
  | CopyText (o : CopyTextOption)
  | ShiftText (o : List ShiftTextOption)
  | LineTolerance (o : Int)
  | JointTolerance (o : Int)
  | ThresholdBlocksize (o : Int)
  | ThresholdConstant (o : Int)
  | Iterations (o : Int)
  | Resolution (o : Int)
  | LatticePlotType (o : LatticePlotTypeOption)
  | LatticeHelp

/-- A call of one of the eight `StreamOption` constructors of the source, with
its argument. -/
inductive StreamCall where
  | StreamTableRegions (o : String)
  | StreamTableAreas (o : String)
  | Columns (o : String)
  | EdgeTolerance (o : Int)
  | RowTolerance (o : Int)
  | ColumnTolerance (o : Int)
  | StreamPlotType (o : StreamPlotTypeOption)
  | StreamHelp

/-- The option that a call of a `GlobalOption` constructor returns. -/
def globalCallOption {float64 : Type} (FormatFloat : float64 → String) :
    GlobalCall float64 → GlobalOption
  | .Version => Version
  | .Quiet o => Quiet o
  | .Pages o => Pages o
  | .Password o => Password o
  | .Output o => Output o
  | .Format o => Format o
  | .Zip => Zip
  | .SplitText => SplitText
  | .FlagSize o => FlagSize o
  | .StripText o => StripText o
  | .Margins o => Margins FormatFloat o
  | .Help => Help

/-- The option that a call of a `LatticeOption` constructor returns. -/
def latticeCallOption : LatticeCall → LatticeOption
  | .LatticeTableRegions o => LatticeTableRegions o
  | .LatticeTableAreas o => LatticeTableAreas o
  | .ProcessingBackground => ProcessingBackground
  | .LineScale o => LineScale o
  | .CopyText o => CopyText o
  | .ShiftText o => ShiftText o
  | .LineTolerance o => LineTolerance o
  | .JointTolerance o => JointTolerance o
  | .ThresholdBlocksize o => ThresholdBlocksize o
  | .ThresholdConstant o => ThresholdConstant o
  | .Iterations o => Iterations o
  | .Resolution o => Resolution o
  | .LatticePlotType o => LatticePlotType o
  | .LatticeHelp => LatticeHelp

/-- The option that a call of a `StreamOption` constructor returns. -/
def streamCallOption : StreamCall → StreamOption
  | .StreamTableRegions o => StreamTableRegions o
  | .StreamTableAreas o => StreamTableAreas o
  | .Columns o => Columns o
  | .EdgeTolerance o => EdgeTolerance o
  | .RowTolerance o => RowTolerance o
  | .ColumnTolerance o => ColumnTolerance o
  | .StreamPlotType o => StreamPlotType o
  | .StreamHelp => StreamHelp

/-- The specification's "a list of one or two tokens whose first token starts
with `--`". -/
def FlagThenAtMostOneValue (ts : List String) : Prop :=
  (ts.length = 1 ∨ ts.length = 2)
    ∧ ∃ (name : String) (values : List String), ts = ("--" ++ name) :: values

/-! ## Slices and their backing arrays

The builder again, this time with Go's slices in memory: a slice is a header
(address, length, capacity) over a backing array, and `append` writes into the
spare capacity of the backing array when the new elements fit. -/

/-- The memory that holds the backing arrays of the slices of strings: the
array stored at each address, and the next free address. -/
structure Heap where
  array : Nat → List String
  next : Nat

/-- A Go slice header: the address of the backing array, the length and the
capacity. -/
structure Slice where
  ptr : Nat
  len : Nat
  cap : Nat
  deriving DecidableEq, Repr

/-- The nil slice, the value of `var s []string`. -/
def Slice.nil : Slice := { ptr := 0, len := 0, cap := 0 }

/-- The elements of a slice: the first `len` elements of its backing array. -/
def Slice.elems (h : Heap) (s : Slice) : List String :=
  (h.array s.ptr).take s.len

/-- Go's built-in `append(s, xs...)`. When the new elements fit the capacity
they are written into the backing array of `s` behind its last element and
the result shares that array; otherwise a new array is allocated (of the
capacity the runtime's `growslice` chooses, at least the length needed), the
elements of `s` and `xs` are copied into it, and the old array is left as it
is. -/
def go_append (growslice : Nat → Nat → Nat) (h : Heap) (s : Slice) (xs : List String) :
    Heap × Slice :=
  if s.len + xs.length ≤ s.cap then
    let a := h.array s.ptr
    ({ h with array := fun p =>
          if p = s.ptr then a.take s.len ++ xs ++ a.drop (s.len + xs.length) else h.array p },
      { s with len := s.len + xs.length })
  else
    let newcap := max (s.len + xs.length) (growslice s.cap (s.len + xs.length))
    let a := s.elems h ++ xs ++ List.replicate (newcap - (s.len + xs.length)) ""
    ({ array := fun p => if p = h.next then a else h.array p, next := h.next + 1 },
      { ptr := h.next, len := s.len + xs.length, cap := newcap })

/-- The loop `for _, option := range options { acc = append(acc, option()...) }`
in memory. -/
def appendOptions (growslice : Nat → Nat → Nat) (h : Heap) (acc : Slice)
    (options : List (Unit → List String)) : Heap × Slice :=
  options.foldl (fun st option => go_append growslice st.1 st.2 (option ())) (h, acc)

/-- Go `type Camelot struct { globalOptions []string }`, the field being a
slice header. -/
structure MemCamelot where
  globalOptions : Slice
  deriving DecidableEq, Repr

/-- Go `NewCamelot(options ...GlobalOption)` in memory. -/
def MemCamelot.NewCamelot (growslice : Nat → Nat → Nat) (h : Heap)
    (options : List GlobalOption) : Heap × MemCamelot :=
  let st := appendOptions growslice h Slice.nil options
  (st.1, { globalOptions := st.2 })

/-- Go `(c Camelot) Exec()` in memory: the arguments are read from the slice. -/
def MemCamelot.Exec {R : Type} (CombinedOutput : Cmd → R) (h : Heap) (c : MemCamelot) :
    Heap × R :=
  let cmd := exec_Command "camelot" (c.globalOptions.elems h)
  (h, CombinedOutput cmd)

/-- Go `(c Camelot) Lattice(inputFile, options...)` in memory: the three nested
`append` calls start from the slice `c.globalOptions` itself. The copy of the
arguments that `exec.Command` makes is kept as a value. -/
def MemCamelot.Lattice {R : Type} (growslice : Nat → Nat → Nat) (CombinedOutput : Cmd → R)
    (h : Heap) (c : MemCamelot) (inputFile : String) (options : List LatticeOption) :
    Heap × R :=
  let latticeOptions := appendOptions growslice h Slice.nil options
  let a1 := go_append growslice latticeOptions.1 c.globalOptions ["lattice"]
  let a2 := go_append growslice a1.1 a1.2 (latticeOptions.2.elems a1.1)
  let a3 := go_append growslice a2.1 a2.2 [inputFile]
  let cmd := exec_Command "camelot" (a3.2.elems a3.1)
  (a3.1, CombinedOutput cmd)

/-- Go `(c Camelot) Stream(inputFile, options...)` in memory. -/
def MemCamelot.Stream {R : Type} (growslice : Nat → Nat → Nat) (CombinedOutput : Cmd → R)
    (h : Heap) (c : MemCamelot) (inputFile : String) (options : List StreamOption) :
    Heap × R :=
  let streamOptions := appendOptions growslice h Slice.nil options
  let a1 := go_append growslice streamOptions.1 c.globalOptions ["stream"]
  let a2 := go_append growslice a1.1 a1.2 (streamOptions.2.elems a1.1)
  let a3 := go_append growslice a2.1 a2.2 [inputFile]
  let cmd := exec_Command "camelot" (a3.2.elems a3.1)
  (a3.1, CombinedOutput cmd)

/-- A slice is valid in a memory when its length is within its capacity, its
capacity within its backing array, and the array is allocated (a slice of
capacity zero needs no array). -/
def Slice.Valid (h : Heap) (s : Slice) : Prop :=
  s.len ≤ s.cap ∧ s.cap ≤ (h.array s.ptr).length ∧ (s.cap = 0 ∨ s.ptr < h.next)

/-- Appending to `s` cannot write over an element of `t`: one of them has no
capacity, or they have different backing arrays, or `t` ends before the
first free position of `s`. -/
def Slice.Untouched (t s : Slice) : Prop :=
  t.cap = 0 ∨ s.cap = 0 ∨ t.ptr ≠ s.ptr ∨ t.len ≤ s.len

/-- Two slices share no backing array. -/
def Slice.Apart (t s : Slice) : Prop :=
  t.cap = 0 ∨ s.cap = 0 ∨ t.ptr ≠ s.ptr

/-- The doubling policy of the runtime for small slices: the length needed
when it exceeds twice the old capacity, else twice the old capacity. -/
def growslice_double (oldCap needed : Nat) : Nat :=
  if needed > 2 * oldCap then needed else 2 * oldCap

/-- The memory before anything is allocated. -/
def Heap.empty : Heap := { array := fun _ => [], next := 0 }

/-! ## Helper lemmas -/

/-- The append loop, started from any accumulator, adds the flattened tokens. -/
theorem foldl_append_eq (os : List (Unit → List String)) (acc : List String) :
    os.foldl (fun acc option => acc ++ option ()) acc = acc ++ flattenSpec os := by
  induction os generalizing acc with
  | nil => simp [flattenSpec]
  | cons o os ih => simp [flattenSpec, ih]

/-- The specification's flattening distributes over concatenation. -/
theorem flattenSpec_append (xs ys : List (Unit → List String)) :
    flattenSpec (xs ++ ys) = flattenSpec xs ++ flattenSpec ys := by
  induction xs with
  | nil => simp [flattenSpec]
  | cons o os ih => simp [flattenSpec, ih]

/-- The tokens `NewCamelot` stores are the flattened tokens of its options. -/
theorem NewCamelot_globalOptions (os : List GlobalOption) :
    (NewCamelot os).globalOptions = flattenSpec os := by
  simp [NewCamelot, foldl_append_eq]

/-- The loop of `strings.Join`, entered with the buffer `b` and at least one
element left, yields `b`, the separator, and the remaining elements joined. -/
theorem strings_Join_loop_eq (sep b s : String) (rest : List String) :
    strings_Join_loop sep b (s :: rest) = b ++ sep ++ joinSpec sep (s :: rest) := by
  induction rest generalizing b s with
  | nil => simp [strings_Join_loop, joinSpec]
  | cons t rest ih =>
    rw [strings_Join_loop, ih]
    simp [joinSpec, String.append_assoc]

/-- Go `strings.Join` computes the specification's joined string. -/
theorem strings_Join_eq (elems : List String) (sep : String) :
    strings_Join elems sep = joinSpec sep elems := by
  match elems with
  | [] => rfl
  | [e] => rfl
  | e :: s :: rest =>
    simp only [strings_Join, strings_Join_loop_eq]
    simp [joinSpec, String.append_assoc]

/-- A digit character of core stands for its digit. -/
theorem digitChar_spec (d : Nat) (h : d < 10) :
    (Nat.digitChar d).isDigit = true ∧ (Nat.digitChar d).toNat - 48 = d
      ∧ (Nat.digitChar d = '0' → d = 0) := by
  interval_cases d <;> decide

/-- The value of a digit string extended by one digit. -/
theorem decimalValueSpec_concat (cs : List Char) (c : Char) :
    decimalValueSpec (cs ++ [c]) = 10 * decimalValueSpec cs + (c.toNat - 48) := by
  simp [decimalValueSpec, List.foldl_append]

/-- The digit loop of `Nat.repr`, with enough fuel, puts in front of its
accumulator the digits of `n`: all digits, at least one, of value `n`, and
starting with `0` only for `n = 0`. -/
theorem toDigitsCore_spec (fuel n : Nat) (ds : List Char) (h : n < fuel) :
    ∃ front : List Char, Nat.toDigitsCore 10 fuel n ds = front ++ ds ∧ front ≠ []
      ∧ (∀ c ∈ front, c.isDigit = true) ∧ decimalValueSpec front = n
      ∧ (front.head? = some '0' → n = 0) := by
  induction fuel generalizing n ds with
  | zero => omega
  | succ fuel ih =>
    have hd := digitChar_spec (n % 10) (Nat.mod_lt _ (by decide))
    by_cases hq : n / 10 = 0
    · have hn : n % 10 = n := Nat.mod_eq_of_lt (by omega)
      refine ⟨[Nat.digitChar (n % 10)], ?_, by simp, ?_, ?_, ?_⟩
      · simp [Nat.toDigitsCore, hq]
      · intro c hc
        simp only [List.mem_singleton] at hc
        rw [hc]
        exact hd.1
      · simp only [decimalValueSpec, List.foldl_cons, List.foldl_nil]
        omega
      · intro h0
        simp only [List.head?_cons, Option.some.injEq] at h0
        have := hd.2.2 h0
        omega
    · obtain ⟨front, hfront, hne, hdig, hval, hhead⟩ :=
        ih (n / 10) (Nat.digitChar (n % 10) :: ds) (by omega)
      refine ⟨front ++ [Nat.digitChar (n % 10)], ?_, by simp, ?_, ?_, ?_⟩
      · simp [Nat.toDigitsCore, hq, hfront]
      · intro c hc
        rcases List.mem_append.1 hc with hc | hc
        · exact hdig c hc
        · simp only [List.mem_singleton] at hc
          rw [hc]
          exact hd.1
      · rw [decimalValueSpec_concat, hval]
        omega
      · intro h0
        cases front with
        | nil => exact absurd rfl hne
        | cons a front =>
          simp only [List.cons_append, List.head?_cons] at h0
          exact absurd (hhead (by simpa using h0)) hq

/-- The digits that `Nat.repr` gives. -/
theorem Nat_repr_spec (n : Nat) :
    ∃ ds : List Char, (Nat.repr n).data = ds ∧ ds ≠ []
      ∧ (∀ c ∈ ds, c.isDigit = true) ∧ decimalValueSpec ds = n
      ∧ (ds.head? = some '0' → ds = ['0']) := by
  obtain ⟨front, hfront, hne, hdig, hval, hhead⟩ := toDigitsCore_spec (n + 1) n [] (by omega)
  refine ⟨front, ?_, hne, hdig, hval, ?_⟩
  · show (Nat.toDigits 10 n).asString.data = front
    simp [Nat.toDigits, hfront, List.asString]
  · intro h0
    have hn : n = 0 := hhead h0
    subst hn
    have : Nat.toDigitsCore 10 1 0 [] = ['0'] := rfl
    rw [this] at hfront
    simpa using hfront.symm

/-- Go `strconv.Itoa` renders canonically. -/
theorem strconv_Itoa_canonical (n : Int) : CanonicalDecimalSpec n (strconv_Itoa n) := by
  cases n with
  | ofNat m =>
    obtain ⟨ds, hdata, hne, hdig, hval, hhead⟩ := Nat_repr_spec m
    refine ⟨ds, ?_, hne, hdig, hhead, ?_⟩
    · have hm : ¬ ((m : Int) < 0) := by omega
      simp [strconv_Itoa, hdata, hm]
    · simpa using hval
  | negSucc m =>
    obtain ⟨ds, hdata, hne, hdig, hval, hhead⟩ := Nat_repr_spec (m + 1)
    refine ⟨ds, ?_, hne, hdig, hhead, ?_⟩
    · have : Int.negSucc m < 0 := Int.negSucc_lt_zero m
      simp [strconv_Itoa, hdata, this]
    · simpa using hval

/-- A canonical rendering of `n` parses back to `n`. -/
theorem parseDecimalSpec_of_canonical (n : Int) (s : String)
    (h : CanonicalDecimalSpec n s) : parseDecimalSpec s = some n := by
  obtain ⟨ds, hdata, hne, hdig, hhead, hval⟩ := h
  have hall : ds.all Char.isDigit = true := by
    simpa [List.all_eq_true] using hdig
  have hparse : parseDigitsSpec ds = some (decimalValueSpec ds) := by
    simp [parseDigitsSpec, hne, hall]
  by_cases hn : n < 0
  · simp only [hn, if_true] at hdata
    simp only [parseDecimalSpec, hdata, List.head?_cons, if_true, List.tail_cons, hparse, hval,
      Option.map_some']
    congr 1
    simp only [Int.ofNat_eq_coe]
    omega
  · simp only [hn, if_false] at hdata
    have hminus : ds.head? ≠ some '-' := by
      cases ds with
      | nil => simp
      | cons a ds =>
        intro h0
        simp only [List.head?_cons, Option.some.injEq] at h0
        have := hdig a (by simp)
        rw [h0] at this
        exact absurd this (by decide)
    simp only [parseDecimalSpec, hdata, hminus, if_false, hparse, hval, Option.map_some']
    congr 1
    simp only [Int.ofNat_eq_coe]
    omega

/-- A text without a comma is its own single segment. -/
theorem splitCommaChars_of_not_mem (w : List Char) (h : ',' ∉ w) :
    splitCommaChars w = [w] := by
  induction w with
  | nil => rfl
  | cons c w ih =>
    have hc : c ≠ ',' := fun e => h (by simp [e])
    have hw : ',' ∉ w := fun e => h (by simp [e])
    simp [splitCommaChars, hc, ih hw]

/-- A first segment without a comma, followed by a comma, is split off. -/
theorem splitCommaChars_append_comma (w rest : List Char) (h : ',' ∉ w) :
    splitCommaChars (w ++ ',' :: rest) = w :: splitCommaChars rest := by
  induction w with
  | nil => simp [splitCommaChars]
  | cons c w ih =>
    have hc : c ≠ ',' := fun e => h (by simp [e])
    have hw : ',' ∉ w := fun e => h (by simp [e])
    simp [splitCommaChars, hc, ih hw]

/-- Splitting the comma join of comma-free elements gives the elements back. -/
theorem splitCommaChars_joinSpec (ds : List String) (hne : ds ≠ [])
    (hc : ∀ d ∈ ds, ',' ∉ d.data) :
    splitCommaChars (joinSpec "," ds).data = ds.map String.data := by
  induction ds with
  | nil => exact absurd rfl hne
  | cons e rest ih =>
    cases rest with
    | nil =>
      simp only [joinSpec, List.map_cons, List.map_nil]
      exact splitCommaChars_of_not_mem _ (hc e (by simp))
    | cons d rest =>
      have hrest := ih (by simp) (fun x hx => hc x (by simp [hx]))
      have hdata : (joinSpec "," (e :: d :: rest)).data
          = e.data ++ ',' :: (joinSpec "," (d :: rest)).data := by
        simp [joinSpec, String.data_append]
      rw [hdata, splitCommaChars_append_comma _ _ (hc e (by simp)), hrest]
      rfl

/-- Splitting the value of `strings.Join(ds, ",")` gives `ds` back, for a
non-empty `ds` without commas. -/
theorem splitCommaSpec_strings_Join (ds : List String) (hne : ds ≠ [])
    (hc : ∀ d ∈ ds, ',' ∉ d.data) :
    splitCommaSpec (strings_Join ds ",") = ds := by
  rw [strings_Join_eq, splitCommaSpec, splitCommaChars_joinSpec ds hne hc, List.map_map]
  have : (String.mk ∘ String.data) = id := by
    funext s
    rfl
  rw [this, List.map_id]

/-- Options of one or two tokens each flatten to between `n` and `2n` tokens. -/
theorem flattenSpec_length_bounds (os : List (Unit → List String))
    (h : ∀ o ∈ os, FlagThenAtMostOneValue (o ())) :
    os.length ≤ (flattenSpec os).length ∧ (flattenSpec os).length ≤ 2 * os.length := by
  induction os with
  | nil => simp [flattenSpec]
  | cons o os ih =>
    have ho := (h o (by simp)).1
    have hos := ih (fun x hx => h x (by simp [hx]))
    simp only [flattenSpec, List.length_append, List.length_cons]
    omega

/-- A flag alone has the shape of an option. -/
theorem flag_alone_shape (name : String) : FlagThenAtMostOneValue ["--" ++ name] :=
  ⟨Or.inl rfl, name, [], rfl⟩

/-- A flag with one value has the shape of an option. -/
theorem flag_value_shape (name v : String) : FlagThenAtMostOneValue ["--" ++ name, v] :=
  ⟨Or.inr rfl, name, [v], rfl⟩

/-- Every `GlobalOption` constructor emits a flag and at most one value. -/
theorem globalCallOption_shape {float64 : Type} (FormatFloat : float64 → String)
    (k : GlobalCall float64) : FlagThenAtMostOneValue (globalCallOption FormatFloat k ()) := by
  cases k
  case Version => exact flag_alone_shape "help"
  case Quiet o => exact flag_value_shape "quiet" o
  case Pages o => exact flag_value_shape "pages" o
  case Password o => exact flag_value_shape "password" o
  case Output o => exact flag_value_shape "output" o
  case Format o => exact flag_value_shape "format" o
  case Zip => exact flag_alone_shape "zip"
  case SplitText => exact flag_alone_shape "split_text"
  case FlagSize o => exact flag_value_shape "flag_size" (strconv_Itoa o)
  case StripText o => exact flag_value_shape "strip_text" o
  case Margins o => exact flag_value_shape "margins" (FormatFloat o)
  case Help => exact flag_alone_shape "help"

/-- Every `LatticeOption` constructor emits a flag and at most one value. -/
theorem latticeCallOption_shape (k : LatticeCall) :
    FlagThenAtMostOneValue (latticeCallOption k ()) := by
  cases k
  case LatticeTableRegions o => exact flag_value_shape "table_regions" o
  case LatticeTableAreas o => exact flag_value_shape "table_areas" o
  case ProcessingBackground => exact flag_alone_shape "processing_background"
  case LineScale o => exact flag_value_shape "line_scale" (strconv_Itoa o)
  case CopyText o => exact flag_value_shape "copy_text" o
  case ShiftText o => exact flag_value_shape "shift_text" (strings_Join (o.map fun x => x) ",")
  case LineTolerance o => exact flag_value_shape "line_tol" (strconv_Itoa o)
  case JointTolerance o => exact flag_value_shape "joint_tol" (strconv_Itoa o)
  case ThresholdBlocksize o => exact flag_value_shape "threshold_blocksize" (strconv_Itoa o)
  case ThresholdConstant o => exact flag_value_shape "threshold_constant" (strconv_Itoa o)
  case Iterations o => exact flag_value_shape "iterations" (strconv_Itoa o)
  case Resolution o => exact flag_value_shape "resolution" (strconv_Itoa o)
  case LatticePlotType o => exact flag_value_shape "plot_type" o
  case LatticeHelp => exact flag_alone_shape "help"

/-- Every `StreamOption` constructor emits a flag and at most one value. -/
theorem streamCallOption_shape (k : StreamCall) :
    FlagThenAtMostOneValue (streamCallOption k ()) := by
  cases k
  case StreamTableRegions o => exact flag_value_shape "table_regions" o
  case StreamTableAreas o => exact flag_value_shape "table_areas" o
  case Columns o => exact flag_value_shape "columns" o
  case EdgeTolerance o => exact flag_value_shape "edge_tol" (strconv_Itoa o)
  case RowTolerance o => exact flag_value_shape "row_tol" (strconv_Itoa o)
  case ColumnTolerance o => exact flag_value_shape "column_tol" (strconv_Itoa o)
  case StreamPlotType o => exact flag_value_shape "plot_type" o
  case StreamHelp => exact flag_alone_shape "help"

/-- Writing `xs` at position `i` of an array, within its bounds, keeps the
length, keeps every element before `i`, and puts `xs` behind them. -/
theorem write_in_place (a xs : List String) (i : Nat) (h : i + xs.length ≤ a.length) :
    (a.take i ++ xs ++ a.drop (i + xs.length)).length = a.length
    ∧ (a.take i ++ xs ++ a.drop (i + xs.length)).take (i + xs.length) = a.take i ++ xs
    ∧ (∀ k, k ≤ i ∨ xs = [] →
        (a.take i ++ xs ++ a.drop (i + xs.length)).take k = a.take k) := by
  have hi : (a.take i).length = i := by
    rw [List.length_take]
    omega
  refine ⟨?_, ?_, ?_⟩
  · simp only [List.length_append, List.length_drop, hi]
    omega
  · have : (a.take i ++ xs).length = i + xs.length := by
      rw [List.length_append, hi]
    rw [List.take_append_of_le_length (by omega), List.take_of_length_le (by omega)]
  · intro k hk
    rcases hk with hk | hk
    · rw [List.append_assoc, List.take_append_of_le_length (by omega), List.take_take]
      congr 1
      omega
    · subst hk
      simp

/-- What `append` does in memory: the result is valid and holds the elements
of `s` followed by `xs`; every valid slice that the append cannot write over
stays valid, keeps its elements, and cannot be written over by an append to
the result either; a slice apart from `s` is apart from the result. -/
theorem go_append_spec (growslice : Nat → Nat → Nat) (h : Heap) (s : Slice)
    (xs : List String) (hs : s.Valid h) :
    (go_append growslice h s xs).2.Valid (go_append growslice h s xs).1
    ∧ (go_append growslice h s xs).2.elems (go_append growslice h s xs).1 = s.elems h ++ xs
    ∧ (∀ t : Slice, t.Valid h → t.Untouched s →
        t.Valid (go_append growslice h s xs).1
        ∧ t.elems (go_append growslice h s xs).1 = t.elems h
        ∧ t.Untouched (go_append growslice h s xs).2)
    ∧ (∀ t : Slice, t.Valid h → t.Apart s → t.Apart (go_append growslice h s xs).2) := by
  obtain ⟨hlen, hcap, hptr⟩ := hs
  by_cases hfit : s.len + xs.length ≤ s.cap
  · obtain ⟨wlen, wtake, wkeep⟩ :=
      write_in_place (h.array s.ptr) xs s.len (by omega)
    simp only [go_append, hfit, if_true]
    refine ⟨⟨hfit, ?_, hptr⟩, ?_, ?_, ?_⟩
    · simp only [if_true]
      omega
    · simp only [Slice.elems, if_true]
      exact wtake
    · intro t ht hts
      obtain ⟨tlen, tcap, tptr⟩ := ht
      by_cases hp : t.ptr = s.ptr
      · have hk : (List.take s.len (h.array s.ptr) ++ xs
              ++ List.drop (s.len + xs.length) (h.array s.ptr)).take t.len
            = (h.array s.ptr).take t.len := by
          rcases hts with h0 | h0 | h0 | h0
          · have : t.len = 0 := by omega
            simp [this]
          · have hx : xs = [] := by
              apply List.eq_nil_of_length_eq_zero
              omega
            exact wkeep _ (Or.inr hx)
          · exact absurd hp h0
          · exact wkeep _ (Or.inl h0)
        refine ⟨⟨tlen, ?_, tptr⟩, ?_, ?_⟩
        · simp only [hp, if_true]
          rw [wlen, ← hp]
          exact tcap
        · simp only [Slice.elems, hp, if_true]
          exact hk
        · rcases hts with h0 | h0 | h0 | h0
          · exact Or.inl h0
          · exact Or.inr (Or.inl h0)
          · exact absurd hp h0
          · exact Or.inr (Or.inr (Or.inr (by simp only; omega)))
      · refine ⟨⟨tlen, ?_, tptr⟩, ?_, Or.inr (Or.inr (Or.inl hp))⟩
        · simp only [hp, if_false]
          exact tcap
        · simp only [Slice.elems, hp, if_false]
    · intro t _ hts
      exact hts
  · have helems : (s.elems h).length = s.len := by
      simp only [Slice.elems, List.length_take]
      omega
    simp only [go_append, hfit, if_false]
    refine ⟨⟨?_, ?_, Or.inr ?_⟩, ?_, ?_, ?_⟩
    · simp only
      omega
    · simp only [if_true, List.length_append, List.length_replicate, helems]
      omega
    · simp only
      omega
    · have htake : (List.take s.len (h.array s.ptr) ++ xs).length = s.len + xs.length := by
        rw [List.length_append, List.length_take]
        omega
      simp only [Slice.elems, if_true]
      rw [List.take_append_of_le_length (by omega), List.take_of_length_le (by omega)]
    · intro t ht hts
      obtain ⟨tlen, tcap, tptr⟩ := ht
      rcases tptr with h0 | h0
      · have hl : t.len = 0 := by omega
        refine ⟨⟨tlen, by omega, Or.inl h0⟩, ?_, Or.inl h0⟩
        simp [Slice.elems, hl]
      · have hp : t.ptr ≠ h.next := by omega
        refine ⟨⟨tlen, ?_, Or.inr (by simp only; omega)⟩, ?_, Or.inr (Or.inr (Or.inl hp))⟩
        · simp only [hp, if_false]
          exact tcap
        · simp only [Slice.elems, hp, if_false]
    · intro t ht _
      obtain ⟨_, _, tptr⟩ := ht
      rcases tptr with h0 | h0
      · exact Or.inl h0
      · exact Or.inr (Or.inr (by simp only; omega))

/-- The nil slice is valid in every memory and has no element. -/
theorem Slice.nil_valid (h : Heap) : Slice.nil.Valid h ∧ Slice.nil.elems h = [] :=
  ⟨⟨Nat.le_refl _, Nat.zero_le _, Or.inl rfl⟩, rfl⟩

/-- Slices that are apart cannot be written over by an append to the other. -/
theorem Slice.Apart.untouched {t s : Slice} (h : t.Apart s) :
    t.Untouched s ∧ s.Untouched t := by
  rcases h with h | h | h
  · exact ⟨Or.inl h, Or.inr (Or.inl h)⟩
  · exact ⟨Or.inr (Or.inl h), Or.inl h⟩
  · exact ⟨Or.inr (Or.inr (Or.inl h)), Or.inr (Or.inr (Or.inl (Ne.symm h)))⟩

/-- The append loop in memory: the accumulator ends up valid, holding its
former elements followed by the flattened tokens of the options, and every
valid slice apart from the accumulator stays valid, unchanged and apart. -/
theorem appendOptions_spec (growslice : Nat → Nat → Nat) (os : List (Unit → List String))
    (h : Heap) (acc : Slice) (hacc : acc.Valid h) :
    (appendOptions growslice h acc os).2.Valid (appendOptions growslice h acc os).1
    ∧ (appendOptions growslice h acc os).2.elems (appendOptions growslice h acc os).1
        = acc.elems h ++ flattenSpec os
    ∧ (∀ t : Slice, t.Valid h → t.Apart acc →
        t.Valid (appendOptions growslice h acc os).1
        ∧ t.elems (appendOptions growslice h acc os).1 = t.elems h
        ∧ t.Apart (appendOptions growslice h acc os).2) := by
  induction os generalizing h acc with
  | nil =>
    refine ⟨hacc, ?_, fun t ht hta => ⟨ht, rfl, hta⟩⟩
    simp [appendOptions, flattenSpec]
  | cons o os ih =>
    obtain ⟨v1, e1, keep1, apart1⟩ := go_append_spec growslice h acc (o ()) hacc
    obtain ⟨v2, e2, keep2⟩ := ih (go_append growslice h acc (o ())).1
      (go_append growslice h acc (o ())).2 v1
    have step : appendOptions growslice h acc (o :: os)
        = appendOptions growslice (go_append growslice h acc (o ())).1
            (go_append growslice h acc (o ())).2 os := rfl
    rw [step]
    refine ⟨v2, ?_, ?_⟩
    · rw [e2, e1, flattenSpec, List.append_assoc]
    · intro t ht hta
      obtain ⟨tv, te, _⟩ := keep1 t ht hta.untouched.1
      obtain ⟨tv2, te2, ta2⟩ := keep2 t tv (apart1 t ht hta)
      exact ⟨tv2, te2.trans te, ta2⟩

/-- The three nested appends of `Lattice` and `Stream`, after the option loop:
the argument slice holds the global tokens, the selector, the option tokens and
the path, and the slice of the global tokens is valid and unchanged in the
memory that results. -/
theorem nested_append_spec (growslice : Nat → Nat → Nat) (h : Heap) (g : Slice)
    (selector inputFile : String) (os : List (Unit → List String)) (hg : g.Valid h) :
    let lo := appendOptions growslice h Slice.nil os
    let a1 := go_append growslice lo.1 g [selector]
    let a2 := go_append growslice a1.1 a1.2 (lo.2.elems a1.1)
    let a3 := go_append growslice a2.1 a2.2 [inputFile]
    a3.2.elems a3.1 = g.elems h ++ [selector] ++ flattenSpec os ++ [inputFile]
      ∧ g.Valid a3.1 ∧ g.elems a3.1 = g.elems h := by
  intro lo a1 a2 a3
  obtain ⟨lov, loe, lokeep⟩ := appendOptions_spec growslice os h Slice.nil (Slice.nil_valid h).1
  obtain ⟨gv0, ge0, ga0⟩ := lokeep g hg (Or.inr (Or.inl rfl))
  obtain ⟨v1, e1, keep1, _⟩ := go_append_spec growslice lo.1 g [selector] gv0
  obtain ⟨gv1, ge1, gu1⟩ := keep1 g gv0 (Or.inr (Or.inr (Or.inr (Nat.le_refl _))))
  obtain ⟨_, loe1, _⟩ := keep1 lo.2 lov ga0.untouched.2
  obtain ⟨v2, e2, keep2, _⟩ := go_append_spec growslice a1.1 a1.2 (lo.2.elems a1.1) v1
  obtain ⟨gv2, ge2, gu2⟩ := keep2 g gv1 gu1
  obtain ⟨_, e3, keep3, _⟩ := go_append_spec growslice a2.1 a2.2 [inputFile] v2
  obtain ⟨gv3, ge3, _⟩ := keep3 g gv2 gu2
  refine ⟨?_, gv3, ?_⟩
  · rw [e3, e2, e1, loe1, loe, ge0, (Slice.nil_valid h).2, List.nil_append]
  · rw [ge3, ge2, ge1, ge0]

/-- `NewCamelot` in memory builds a valid slice holding the flattened tokens. -/
theorem MemCamelot.NewCamelot_spec (growslice : Nat → Nat → Nat) (h : Heap)
    (options : List GlobalOption) :
    (MemCamelot.NewCamelot growslice h options).2.globalOptions.Valid
        (MemCamelot.NewCamelot growslice h options).1
    ∧ (MemCamelot.NewCamelot growslice h options).2.globalOptions.elems
        (MemCamelot.NewCamelot growslice h options).1 = flattenSpec options := by
  obtain ⟨v, e, _⟩ := appendOptions_spec growslice options h Slice.nil (Slice.nil_valid h).1
  refine ⟨v, ?_⟩
  simp only [MemCamelot.NewCamelot]
  rw [e, (Slice.nil_valid h).2, List.nil_append]

/-- `Lattice` in memory runs the command that the builder on values runs, and
leaves the slice of the global tokens valid and unchanged. -/
theorem MemCamelot.Lattice_spec {R : Type} (growslice : Nat → Nat → Nat)
    (CombinedOutput : Cmd → R) (h : Heap) (c : MemCamelot) (inputFile : String)
    (options : List LatticeOption) (hc : c.globalOptions.Valid h) :
    (c.Lattice growslice CombinedOutput h inputFile options).2
        = Camelot.Lattice CombinedOutput { globalOptions := c.globalOptions.elems h }
            inputFile options
    ∧ c.globalOptions.Valid (c.Lattice growslice CombinedOutput h inputFile options).1
    ∧ c.globalOptions.elems (c.Lattice growslice CombinedOutput h inputFile options).1
        = c.globalOptions.elems h := by
  obtain ⟨e, v, k⟩ := nested_append_spec growslice h c.globalOptions "lattice" inputFile
    options hc
  refine ⟨?_, v, k⟩
  simp only [MemCamelot.Lattice, Camelot.Lattice, foldl_append_eq, List.nil_append]
  rw [e]

/-- `Stream` in memory runs the command that the builder on values runs, and
leaves the slice of the global tokens valid and unchanged. -/
theorem MemCamelot.Stream_spec {R : Type} (growslice : Nat → Nat → Nat)
    (CombinedOutput : Cmd → R) (h : Heap) (c : MemCamelot) (inputFile : String)
    (options : List StreamOption) (hc : c.globalOptions.Valid h) :
    (c.Stream growslice CombinedOutput h inputFile options).2
        = Camelot.Stream CombinedOutput { globalOptions := c.globalOptions.elems h }
            inputFile options
    ∧ c.globalOptions.Valid (c.Stream growslice CombinedOutput h inputFile options).1
    ∧ c.globalOptions.elems (c.Stream growslice CombinedOutput h inputFile options).1
        = c.globalOptions.elems h := by
  obtain ⟨e, v, k⟩ := nested_append_spec growslice h c.globalOptions "stream" inputFile
    options hc
  refine ⟨?_, v, k⟩
  simp only [MemCamelot.Stream, Camelot.Stream, foldl_append_eq, List.nil_append]
  rw [e]

/-! ## The invocation builder -/

/-- C1: for every Camelot `c` with global tokens `g`, every input file `f` and
every list of lattice options, `Lattice` runs the external program on exactly
`g ++ ["lattice"] ++ (o1() ++ ... ++ on()) ++ [f]`: the base tokens, the
selector, the option tokens in call order, the path. The call
`NewCamelot().Lattice("", LatticeHelp())` builds `["lattice", "--help", ""]`. -/
theorem Lattice_argument_list :
    (∀ (R : Type) (CombinedOutput : Cmd → R) (c : Camelot) (f : String)
        (os : List LatticeOption),
      c.Lattice CombinedOutput f os =
        CombinedOutput
          (exec_Command "camelot" (c.globalOptions ++ ["lattice"] ++ flattenSpec os ++ [f])))
    ∧ (∀ (c : Camelot) (f : String) (os : List LatticeOption),
      (c.Lattice id f os).Path = "camelot" ∧
      (c.Lattice id f os).Args =
        "camelot" :: (c.globalOptions ++ ["lattice"] ++ flattenSpec os ++ [f]))
    ∧ (NewCamelot []).Lattice id "" [LatticeHelp] =
        exec_Command "camelot" ["lattice", "--help", ""] := by
  refine ⟨?_, ?_, by decide⟩
  · intro R CombinedOutput c f os
    simp [Camelot.Lattice, foldl_append_eq]
  · intro c f os
    simp [Camelot.Lattice, foldl_append_eq, exec_Command]

/-- C2: for every Camelot `c` with global tokens `g`, every input file `f` and
every list of stream options, `Stream` runs the external program on exactly
`g ++ ["stream"] ++ (o1() ++ ... ++ on()) ++ [f]`. The call
`NewCamelot().Stream("", StreamHelp())` builds `["stream", "--help", ""]`. -/
theorem Stream_argument_list :
    (∀ (R : Type) (CombinedOutput : Cmd → R) (c : Camelot) (f : String)
        (os : List StreamOption),
      c.Stream CombinedOutput f os =
        CombinedOutput
          (exec_Command "camelot" (c.globalOptions ++ ["stream"] ++ flattenSpec os ++ [f])))
    ∧ (∀ (c : Camelot) (f : String) (os : List StreamOption),
      (c.Stream id f os).Path = "camelot" ∧
      (c.Stream id f os).Args =
        "camelot" :: (c.globalOptions ++ ["stream"] ++ flattenSpec os ++ [f]))
    ∧ (NewCamelot []).Stream id "" [StreamHelp] =
        exec_Command "camelot" ["stream", "--help", ""] := by
  refine ⟨?_, ?_, by decide⟩
  · intro R CombinedOutput c f os
    simp [Camelot.Stream, foldl_append_eq]
  · intro c f os
    simp [Camelot.Stream, foldl_append_eq, exec_Command]

/-- C3: flattening is an order-preserving concatenation without deduplication,
reordering or merging: the global tokens of `NewCamelot(xs ++ ys)` are those of
`NewCamelot(xs)` followed by those of `NewCamelot(ys)`; `NewCamelot(A, B)` holds
`A() ++ B()`, which is `B() ++ A()` only when the two lists coincide (it is not
for `Zip` and `SplitText`), and `NewCamelot(A, A)` holds `A() ++ A()`. -/
theorem NewCamelot_order_preserving :
    (∀ xs ys : List GlobalOption,
      (NewCamelot (xs ++ ys)).globalOptions =
        (NewCamelot xs).globalOptions ++ (NewCamelot ys).globalOptions)
    ∧ (∀ A B : GlobalOption, (NewCamelot [A, B]).globalOptions = A () ++ B ())
    ∧ (∀ A B : GlobalOption,
      (NewCamelot [A, B]).globalOptions = B () ++ A () ↔ A () ++ B () = B () ++ A ())
    ∧ (NewCamelot [Zip, SplitText]).globalOptions = ["--zip", "--split_text"]
    ∧ (NewCamelot [Zip, SplitText]).globalOptions ≠ SplitText () ++ Zip ()
    ∧ (∀ A : GlobalOption, (NewCamelot [A, A]).globalOptions = A () ++ A ())
    ∧ (NewCamelot [Zip, Zip]).globalOptions = ["--zip", "--zip"] := by
  have two : ∀ A B : GlobalOption, (NewCamelot [A, B]).globalOptions = A () ++ B () := by
    intro A B
    simp [NewCamelot]
  refine ⟨?_, two, ?_, by decide, by decide, fun A => two A A, by decide⟩
  · intro xs ys
    simp [NewCamelot_globalOptions, flattenSpec_append]
  · intro A B
    rw [two]

/-- C4: for every list of global options, `Exec` runs the external program on
exactly the flattened global tokens: no sub-operation selector and no path is
added. The call `NewCamelot(Help()).Exec()` runs with `["--help"]`. -/
theorem Exec_argument_list :
    (∀ (R : Type) (CombinedOutput : Cmd → R) (os : List GlobalOption),
      (NewCamelot os).Exec CombinedOutput =
        CombinedOutput (exec_Command "camelot" (flattenSpec os)))
    ∧ (∀ os : List GlobalOption,
      ((NewCamelot os).Exec id).Path = "camelot" ∧
      ((NewCamelot os).Exec id).Args = "camelot" :: flattenSpec os)
    ∧ (NewCamelot [Help]).Exec id = exec_Command "camelot" ["--help"] := by
  refine ⟨?_, ?_, by decide⟩
  · intro R CombinedOutput os
    simp [Camelot.Exec, NewCamelot_globalOptions]
  · intro os
    simp [Camelot.Exec, NewCamelot_globalOptions, exec_Command]

/-! ## The option catalog -/

/-- C5: a margins option is built from ONE floating-point value and emits one
value token: `Margins(o)` flattens to the two tokens `["--margins", fmt(o)]`,
never to four; three values can only be given as three options, which repeat
the flag (six tokens). -/
theorem Margins_emits_one_value {float64 : Type} (FormatFloat : float64 → String)
    (o v1 v2 v3 : float64) :
    Margins FormatFloat o () = ["--margins", FormatFloat o]
    ∧ (Margins FormatFloat o ()).length = 2
    ∧ (Margins FormatFloat o ()).length ≠ 4
    ∧ (NewCamelot [Margins FormatFloat v1, Margins FormatFloat v2,
          Margins FormatFloat v3]).globalOptions =
        ["--margins", FormatFloat v1, "--margins", FormatFloat v2, "--margins", FormatFloat v3]
    ∧ (NewCamelot [Margins FormatFloat v1, Margins FormatFloat v2,
          Margins FormatFloat v3]).globalOptions ≠
        ["--margins", FormatFloat v1, FormatFloat v2, FormatFloat v3] := by
  refine ⟨rfl, rfl, by simp [Margins], ?_, ?_⟩
  · simp [NewCamelot, Margins]
  · simp [NewCamelot, Margins]

/-- C6: `Zip()` and `SplitText()` flatten to their flag token alone, but
`FlagSize(o)` flattens to two tokens, the flag and the decimal rendering of
`o`: `FlagSize(0)` gives `["--flag_size", "0"]`. -/
theorem FlagSize_emits_value_token :
    Zip () = ["--zip"]
    ∧ SplitText () = ["--split_text"]
    ∧ FlagSize 0 () = ["--flag_size", "0"]
    ∧ FlagSize 0 () ≠ ["--flag_size"]
    ∧ (∀ o : Int, FlagSize o () = ["--flag_size", strconv_Itoa o])
    ∧ (∀ o : Int, (FlagSize o ()).length = 2) := by
  refine ⟨rfl, rfl, by decide, by decide, fun _ => rfl, fun _ => rfl⟩

/-- C7: `Version()` flattens to `["--help"]`, not to the `--version` flag of
the usage text, and is the same token list as `Help()`. -/
theorem Version_emits_help :
    Version () = ["--help"]
    ∧ Version () ≠ [usageVersionFlag]
    ∧ Help () = [usageHelpFlag]
    ∧ Version () = Help () := by
  refine ⟨rfl, by decide, rfl, rfl⟩

/-- C8: `ProcessingBackground()` flattens to `["--processing_background"]`,
not to the `--process_background` flag of the lattice usage text. -/
theorem ProcessingBackground_emits_other_flag :
    ProcessingBackground () = ["--processing_background"]
    ∧ ProcessingBackground () ≠ [usageProcessBackgroundFlag]
    ∧ usageProcessBackgroundFlag = "--process_background" := by
  refine ⟨rfl, by decide, rfl⟩

/-- C9: for every list `ds`, `ShiftText(ds)` flattens to exactly two tokens,
`"--shift_text"` and the elements of `ds` joined with `","` in the order
supplied, without sorting or deduplication (`[l, t, l]` gives `"l,t,l"`); for
the empty list the value token is the empty string. -/
theorem ShiftText_tokens :
    (∀ ds : List ShiftTextOption, ShiftText ds () = ["--shift_text", joinSpec "," ds])
    ∧ (∀ ds : List ShiftTextOption, (ShiftText ds ()).length = 2)
    ∧ ShiftText [ShiftTextLeft, ShiftTextTop, ShiftTextLeft] () = ["--shift_text", "l,t,l"]
    ∧ ShiftText [ShiftTextTop, ShiftTextLeft] () = ["--shift_text", "t,l"]
    ∧ ShiftText [ShiftTextLeft, ShiftTextRight, ShiftTextTop, ShiftTextBottom] () =
        ["--shift_text", "l,r,t,b"]
    ∧ ShiftText [] () = ["--shift_text", ""] := by
  refine ⟨?_, fun _ => rfl, by decide, by decide, by decide, by decide⟩
  intro ds
  simp [ShiftText, strings_Join_eq]

/-- C10, as stated, fails: `Format("xml")`, `CopyText("x")`,
`LatticePlotType("textedge")` and `StreamPlotType("joint")` each emit a value
token outside the declared closed set of their flag. -/
theorem enumerated_choice_not_enforced :
    (∃ t, Format "xml" () = ["--format", t] ∧ t ∉ usageFormatChoices)
    ∧ (∃ t, CopyText "x" () = ["--copy_text", t] ∧ t ∉ usageCopyTextChoices)
    ∧ (∃ t, LatticePlotType "textedge" () = ["--plot_type", t]
        ∧ t ∉ usageLatticePlotTypeChoices)
    ∧ (∃ t, StreamPlotType "joint" () = ["--plot_type", t]
        ∧ t ∉ usageStreamPlotTypeChoices) := by
  refine ⟨⟨"xml", rfl, by decide⟩, ⟨"x", rfl, by decide⟩, ⟨"textedge", rfl, by decide⟩,
    ⟨"joint", rfl, by decide⟩⟩

/-- C10, amended: for every value `v` passed to `Format`, `CopyText`,
`LatticePlotType` or `StreamPlotType`, the option emits its flag and one value
token, which is `v` itself, so that it is a member of the declared closed set
of the flag exactly when `v` is. -/
theorem enumerated_choice_member_iff (v : String) :
    (∃ t, Format v () = ["--format", t] ∧ t = v
        ∧ (t ∈ usageFormatChoices ↔ v ∈ usageFormatChoices))
    ∧ (∃ t, CopyText v () = ["--copy_text", t] ∧ t = v
        ∧ (t ∈ usageCopyTextChoices ↔ v ∈ usageCopyTextChoices))
    ∧ (∃ t, LatticePlotType v () = ["--plot_type", t] ∧ t = v
        ∧ (t ∈ usageLatticePlotTypeChoices ↔ v ∈ usageLatticePlotTypeChoices))
    ∧ (∃ t, StreamPlotType v () = ["--plot_type", t] ∧ t = v
        ∧ (t ∈ usageStreamPlotTypeChoices ↔ v ∈ usageStreamPlotTypeChoices)) := by
  refine ⟨⟨v, rfl, rfl, Iff.rfl⟩, ⟨v, rfl, rfl, Iff.rfl⟩, ⟨v, rfl, rfl, Iff.rfl⟩,
    ⟨v, rfl, rfl, Iff.rfl⟩⟩

/-- C11: plot-type validation is lazy: for every string `v`, also one outside
the declared closed set, `LatticePlotType(v)` and `StreamPlotType(v)` are
built and flattened without failure and give exactly `["--plot_type", v]`,
with `v` passed through verbatim. -/
theorem PlotType_passes_value_through :
    (∀ v : String, LatticePlotType v () = ["--plot_type", v])
    ∧ (∀ v : String, StreamPlotType v () = ["--plot_type", v])
    ∧ ("bogus" ∉ usageLatticePlotTypeChoices
        ∧ LatticePlotType "bogus" () = ["--plot_type", "bogus"])
    ∧ ("bogus" ∉ usageStreamPlotTypeChoices
        ∧ StreamPlotType "bogus" () = ["--plot_type", "bogus"])
    ∧ (∀ (c : Camelot) (f v : String),
      c.Lattice id f [LatticePlotType v] =
        exec_Command "camelot" (c.globalOptions ++ ["lattice", "--plot_type", v, f]))
    ∧ (∀ (c : Camelot) (f v : String),
      c.Stream id f [StreamPlotType v] =
        exec_Command "camelot" (c.globalOptions ++ ["stream", "--plot_type", v, f])) := by
  refine ⟨fun _ => rfl, fun _ => rfl, ⟨by decide, rfl⟩, ⟨by decide, rfl⟩, ?_, ?_⟩
  · intro c f v
    simp [Camelot.Lattice, LatticePlotType]
  · intro c f v
    simp [Camelot.Stream, StreamPlotType]

/-- C13: the target path is appended last unconditionally: for every `c`,
every option list and every string `f`, also the empty one, the argument list
built by `Lattice` and by `Stream` ends with `f` as a token of its own and has
`len(global tokens) + 1 + len(option tokens) + 1` tokens. -/
theorem path_appended_last (c : Camelot) (f : String) (os : List (Unit → List String)) :
    (∃ args front, c.Lattice id f os = exec_Command "camelot" args
      ∧ args = front ++ [f]
      ∧ args.getLast? = some f
      ∧ args.length = c.globalOptions.length + 1 + (flattenSpec os).length + 1)
    ∧ (∃ args front, c.Stream id f os = exec_Command "camelot" args
      ∧ args = front ++ [f]
      ∧ args.getLast? = some f
      ∧ args.length = c.globalOptions.length + 1 + (flattenSpec os).length + 1)
    ∧ (∃ args, c.Lattice id "" os = exec_Command "camelot" args
      ∧ args.getLast? = some ""
      ∧ args.length = c.globalOptions.length + 1 + (flattenSpec os).length + 1)
    ∧ (∃ args, c.Stream id "" os = exec_Command "camelot" args
      ∧ args.getLast? = some ""
      ∧ args.length = c.globalOptions.length + 1 + (flattenSpec os).length + 1) := by
  refine ⟨⟨_, c.globalOptions ++ ["lattice"] ++ flattenSpec os, ?_, rfl, ?_, ?_⟩,
    ⟨_, c.globalOptions ++ ["stream"] ++ flattenSpec os, ?_, rfl, ?_, ?_⟩,
    ⟨c.globalOptions ++ ["lattice"] ++ flattenSpec os ++ [""], ?_, ?_, ?_⟩,
    ⟨c.globalOptions ++ ["stream"] ++ flattenSpec os ++ [""], ?_, ?_, ?_⟩⟩
  all_goals first
    | rw [List.getLast?_concat]
    | simp only [List.length_append, List.length_cons, List.length_nil]
    | simp [Camelot.Lattice, Camelot.Stream, foldl_append_eq]

/-- C14: for every string `o`, each string-valued global option flattens to
exactly two tokens, its flag name followed by `o` unchanged, also when `o` is
empty, contains spaces or starts with `--`. -/
theorem string_global_options_verbatim :
    (∀ o : String,
      Quiet o () = ["--quiet", o] ∧ Pages o () = ["--pages", o]
      ∧ Password o () = ["--password", o] ∧ Output o () = ["--output", o]
      ∧ Format o () = ["--format", o] ∧ StripText o () = ["--strip_text", o])
    ∧ (∀ o : String,
      (Quiet o ()).length = 2 ∧ (Pages o ()).length = 2 ∧ (Password o ()).length = 2
      ∧ (Output o ()).length = 2 ∧ (Format o ()).length = 2 ∧ (StripText o ()).length = 2)
    ∧ Quiet "" () = ["--quiet", ""]
    ∧ Pages "1, 3 - end" () = ["--pages", "1, 3 - end"]
    ∧ Password " a b " () = ["--password", " a b "]
    ∧ Output "--zip" () = ["--output", "--zip"]
    ∧ Format "" () = ["--format", ""]
    ∧ StripText " .\n" () = ["--strip_text", " .\n"] := by
  refine ⟨fun _ => ⟨rfl, rfl, rfl, rfl, rfl, rfl⟩, fun _ => ⟨rfl, rfl, rfl, rfl, rfl, rfl⟩,
    rfl, rfl, rfl, rfl, rfl, rfl⟩

/-- C17: an empty option set flattens to no token and is the identity under
concatenation: `NewCamelot()` holds no global token, `NewCamelot(xs ++ [])`
holds the tokens of `NewCamelot(xs)` (and so does `NewCamelot([] ++ xs)`), and
for every `c` with global tokens `g` and every `f`, `Lattice(f)` without
options builds `g ++ ["lattice", f]` and `Stream(f)` builds `g ++ ["stream", f]`. -/
theorem empty_option_set_identity :
    (NewCamelot []).globalOptions = []
    ∧ (∀ xs : List GlobalOption,
      (NewCamelot (xs ++ [])).globalOptions = (NewCamelot xs).globalOptions)
    ∧ (∀ xs : List GlobalOption,
      (NewCamelot ([] ++ xs)).globalOptions = (NewCamelot xs).globalOptions)
    ∧ (∀ xs : List GlobalOption,
      (NewCamelot xs).globalOptions ++ (NewCamelot []).globalOptions
        = (NewCamelot xs).globalOptions)
    ∧ (∀ (c : Camelot) (f : String),
      c.Lattice id f [] = exec_Command "camelot" (c.globalOptions ++ ["lattice", f]))
    ∧ (∀ (c : Camelot) (f : String),
      c.Stream id f [] = exec_Command "camelot" (c.globalOptions ++ ["stream", f]))
    ∧ (NewCamelot []).Exec id = exec_Command "camelot" [] := by
  refine ⟨rfl, ?_, fun _ => rfl, ?_, ?_, ?_, rfl⟩
  · intro xs
    rw [List.append_nil]
  · intro xs
    simp [NewCamelot]
  · intro c f
    simp [Camelot.Lattice]
  · intro c f
    simp [Camelot.Stream]

/-- C15: for every integer `n`, positive, zero or negative, each
integer-valued sub-operation option flattens to exactly two tokens, its flag
name and the canonical base-10 rendering of `n` (a leading `-` for a negative
`n`, no sign otherwise, no leading zero), and parsing that value token as a
decimal integer gives back `n`. -/
theorem integer_options_decimal (n : Int) :
    (LineScale n () = ["--line_scale", strconv_Itoa n]
      ∧ LineTolerance n () = ["--line_tol", strconv_Itoa n]
      ∧ JointTolerance n () = ["--joint_tol", strconv_Itoa n]
      ∧ ThresholdBlocksize n () = ["--threshold_blocksize", strconv_Itoa n]
      ∧ ThresholdConstant n () = ["--threshold_constant", strconv_Itoa n]
      ∧ Iterations n () = ["--iterations", strconv_Itoa n]
      ∧ Resolution n () = ["--resolution", strconv_Itoa n]
      ∧ EdgeTolerance n () = ["--edge_tol", strconv_Itoa n]
      ∧ RowTolerance n () = ["--row_tol", strconv_Itoa n]
      ∧ ColumnTolerance n () = ["--column_tol", strconv_Itoa n])
    ∧ CanonicalDecimalSpec n (strconv_Itoa n)
    ∧ parseDecimalSpec (strconv_Itoa n) = some n
    ∧ (LineScale 15 () = ["--line_scale", "15"]
      ∧ ThresholdConstant (-2) () = ["--threshold_constant", "-2"]
      ∧ Iterations 0 () = ["--iterations", "0"]
      ∧ Resolution 300 () = ["--resolution", "300"]
      ∧ RowTolerance (-9223372036854775808) () = ["--row_tol", "-9223372036854775808"]
      ∧ ColumnTolerance 9223372036854775807 () = ["--column_tol", "9223372036854775807"]) := by
  refine ⟨⟨rfl, rfl, rfl, rfl, rfl, rfl, rfl, rfl, rfl, rfl⟩, strconv_Itoa_canonical n,
    parseDecimalSpec_of_canonical n _ (strconv_Itoa_canonical n),
    by decide, by decide, by decide, by decide, by decide, by decide⟩

/-- C18: the value token of `ShiftText` can be decoded back: for every
non-empty list `ds` none of whose elements contains a comma (in particular
every non-empty list over `l`, `r`, `t`, `b`), splitting the second token of
`ShiftText(ds)()` on `,` gives back `ds`; for the empty list the round trip
fails, as the value token `""` splits to one empty element. -/
theorem ShiftText_value_splits_back (ds : List ShiftTextOption) (hne : ds ≠ [])
    (hc : ∀ d ∈ ds, ',' ∉ d.data) :
    (∃ v, ShiftText ds () = ["--shift_text", v] ∧ splitCommaSpec v = ds)
    ∧ (∀ ls : List ShiftTextOption, ls ≠ [] →
        (∀ d ∈ ls, d ∈ [ShiftTextLeft, ShiftTextRight, ShiftTextTop, ShiftTextBottom]) →
        ∃ v, ShiftText ls () = ["--shift_text", v] ∧ splitCommaSpec v = ls)
    ∧ (∃ v, ShiftText [] () = ["--shift_text", v] ∧ splitCommaSpec v = [""]
        ∧ splitCommaSpec v ≠ []) := by
  have key : ∀ ls : List ShiftTextOption, ls ≠ [] → (∀ d ∈ ls, ',' ∉ d.data) →
      ∃ v, ShiftText ls () = ["--shift_text", v] ∧ splitCommaSpec v = ls := by
    intro ls hls hlc
    refine ⟨strings_Join ls ",", ?_, splitCommaSpec_strings_Join ls hls hlc⟩
    simp [ShiftText]
  refine ⟨key ds hne hc, ?_, ⟨"", by decide, by decide, by decide⟩⟩
  intro ls hls hmem
  refine key ls hls ?_
  intro d hd
  have := hmem d hd
  simp only [List.mem_cons, List.mem_singleton, List.not_mem_nil, or_false] at this
  rcases this with h | h | h | h <;> (rw [h]; decide)

/-- The round trip at a concrete input: `ShiftText([l, t, l])` emits `"l,t,l"`,
which splits back to `[l, t, l]`. -/
theorem ShiftText_value_splits_back_witness :
    ((["l", "t", "l"] : List ShiftTextOption) ≠ []
      ∧ ∀ d ∈ (["l", "t", "l"] : List ShiftTextOption), ',' ∉ d.data)
    ∧ (∃ v, ShiftText ["l", "t", "l"] () = ["--shift_text", v]
        ∧ splitCommaSpec v = ["l", "t", "l"]) :=
  ⟨⟨by decide, by decide⟩,
    (ShiftText_value_splits_back ["l", "t", "l"] (by decide) (by decide)).1⟩

/-- C19: every option constructor of the catalog, for every argument,
flattens to a list of one or two tokens whose first token starts with `--`;
so no option contributes nothing, and for `n` sub-operation options the
argument list built by `Lattice` or `Stream` has between
`len(global tokens) + n + 2` and `len(global tokens) + 2n + 2` tokens. -/
theorem catalog_options_one_or_two_tokens :
    (∀ (float64 : Type) (FormatFloat : float64 → String) (k : GlobalCall float64),
      FlagThenAtMostOneValue (globalCallOption FormatFloat k ())
      ∧ globalCallOption FormatFloat k () ≠ [])
    ∧ (∀ k : LatticeCall,
      FlagThenAtMostOneValue (latticeCallOption k ()) ∧ latticeCallOption k () ≠ [])
    ∧ (∀ k : StreamCall,
      FlagThenAtMostOneValue (streamCallOption k ()) ∧ streamCallOption k () ≠ [])
    ∧ (∀ (c : Camelot) (f : String) (ks : List LatticeCall),
      ∃ args, c.Lattice id f (ks.map latticeCallOption) = exec_Command "camelot" args
        ∧ c.globalOptions.length + ks.length + 2 ≤ args.length
        ∧ args.length ≤ c.globalOptions.length + 2 * ks.length + 2)
    ∧ (∀ (c : Camelot) (f : String) (ks : List StreamCall),
      ∃ args, c.Stream id f (ks.map streamCallOption) = exec_Command "camelot" args
        ∧ c.globalOptions.length + ks.length + 2 ≤ args.length
        ∧ args.length ≤ c.globalOptions.length + 2 * ks.length + 2)
    ∧ ((NewCamelot [Zip]).Lattice id "a.pdf" [LatticeHelp, ProcessingBackground]
        = exec_Command "camelot" ["--zip", "lattice", "--help", "--processing_background",
            "a.pdf"])
    ∧ ((NewCamelot [Zip]).Stream id "a.pdf" [Columns "10,20", RowTolerance 3]
        = exec_Command "camelot" ["--zip", "stream", "--columns", "10,20", "--row_tol", "3",
            "a.pdf"]) := by
  have nonempty : ∀ ts : List String, FlagThenAtMostOneValue ts → ts ≠ [] := by
    intro ts h e
    rw [e] at h
    rcases h.1 with h1 | h1 <;> simp at h1
  refine ⟨fun float64 FormatFloat k => ⟨globalCallOption_shape FormatFloat k,
      nonempty _ (globalCallOption_shape FormatFloat k)⟩,
    fun k => ⟨latticeCallOption_shape k, nonempty _ (latticeCallOption_shape k)⟩,
    fun k => ⟨streamCallOption_shape k, nonempty _ (streamCallOption_shape k)⟩,
    ?_, ?_, by decide, by decide⟩
  · intro c f ks
    have hb := flattenSpec_length_bounds (ks.map latticeCallOption) (by
      intro o ho
      obtain ⟨k, _, rfl⟩ := List.mem_map.1 ho
      exact latticeCallOption_shape k)
    rw [List.length_map] at hb
    refine ⟨c.globalOptions ++ ["lattice"] ++ flattenSpec (ks.map latticeCallOption) ++ [f],
      ?_, ?_, ?_⟩
    · simp [Camelot.Lattice, foldl_append_eq]
    · simp only [List.length_append, List.length_cons, List.length_nil]
      omega
    · simp only [List.length_append, List.length_cons, List.length_nil]
      omega
  · intro c f ks
    have hb := flattenSpec_length_bounds (ks.map streamCallOption) (by
      intro o ho
      obtain ⟨k, _, rfl⟩ := List.mem_map.1 ho
      exact streamCallOption_shape k)
    rw [List.length_map] at hb
    refine ⟨c.globalOptions ++ ["stream"] ++ flattenSpec (ks.map streamCallOption) ++ [f],
      ?_, ?_, ?_⟩
    · simp [Camelot.Stream, foldl_append_eq]
    · simp only [List.length_append, List.length_cons, List.length_nil]
      omega
    · simp only [List.length_append, List.length_cons, List.length_nil]
      omega

/-- C12: `Lattice` and `Stream` never mutate the base option set: for every
Camelot `c` (its slice of global tokens valid in memory), every input file and
every option list, the global tokens of `c` after a call to `Lattice` or
`Stream` are those before it, although the call may write into the spare
capacity of the backing array; so a later call on the same `c` builds the
argument list it would have built without the earlier call: a `Lattice` call
followed by a `Stream` call yields `g ++ ["stream"] ++ ...`, with no leftover
`lattice` or earlier option token. -/
theorem base_option_set_not_mutated {R : Type} (growslice : Nat → Nat → Nat)
    (CombinedOutput : Cmd → R) (h : Heap) (c : MemCamelot) (f1 f2 : String)
    (os1 os2 : List (Unit → List String)) (hc : c.globalOptions.Valid h) :
    (c.globalOptions.elems (c.Lattice growslice CombinedOutput h f1 os1).1
        = c.globalOptions.elems h
      ∧ c.globalOptions.elems (c.Stream growslice CombinedOutput h f1 os1).1
        = c.globalOptions.elems h)
    ∧ ((c.Stream growslice CombinedOutput
          (c.Lattice growslice CombinedOutput h f1 os1).1 f2 os2).2
        = (c.Stream growslice CombinedOutput h f2 os2).2
      ∧ (c.Lattice growslice CombinedOutput
          (c.Stream growslice CombinedOutput h f1 os1).1 f2 os2).2
        = (c.Lattice growslice CombinedOutput h f2 os2).2
      ∧ (c.Lattice growslice CombinedOutput
          (c.Lattice growslice CombinedOutput h f1 os1).1 f2 os2).2
        = (c.Lattice growslice CombinedOutput h f2 os2).2
      ∧ (c.Stream growslice CombinedOutput
          (c.Stream growslice CombinedOutput h f1 os1).1 f2 os2).2
        = (c.Stream growslice CombinedOutput h f2 os2).2
      ∧ (c.Exec CombinedOutput (c.Lattice growslice CombinedOutput h f1 os1).1).2
        = (c.Exec CombinedOutput h).2
      ∧ (c.Exec CombinedOutput (c.Stream growslice CombinedOutput h f1 os1).1).2
        = (c.Exec CombinedOutput h).2)
    ∧ (c.Stream growslice CombinedOutput
          (c.Lattice growslice CombinedOutput h f1 os1).1 f2 os2).2
        = CombinedOutput (exec_Command "camelot"
            (c.globalOptions.elems h ++ ["stream"] ++ flattenSpec os2 ++ [f2]))
    ∧ (c.Lattice growslice CombinedOutput
          (c.Stream growslice CombinedOutput h f1 os1).1 f2 os2).2
        = CombinedOutput (exec_Command "camelot"
            (c.globalOptions.elems h ++ ["lattice"] ++ flattenSpec os2 ++ [f2])) := by
  obtain ⟨_, lv, le⟩ := MemCamelot.Lattice_spec growslice CombinedOutput h c f1 os1 hc
  obtain ⟨_, sv, se⟩ := MemCamelot.Stream_spec growslice CombinedOutput h c f1 os1 hc
  have hL := fun h0 hv => (MemCamelot.Lattice_spec growslice CombinedOutput h0 c f2 os2 hv).1
  have hS := fun h0 hv => (MemCamelot.Stream_spec growslice CombinedOutput h0 c f2 os2 hv).1
  refine ⟨⟨le, se⟩, ⟨?_, ?_, ?_, ?_, ?_, ?_⟩, ?_, ?_⟩
  · rw [hS _ lv, hS _ hc, le]
  · rw [hL _ sv, hL _ hc, se]
  · rw [hL _ lv, hL _ hc, le]
  · rw [hS _ sv, hS _ hc, se]
  · simp only [MemCamelot.Exec, le]
  · simp only [MemCamelot.Exec, se]
  · rw [hS _ lv, le]
    simp [Camelot.Stream, foldl_append_eq]
  · rw [hL _ sv, se]
    simp [Camelot.Lattice, foldl_append_eq]

/-- A Camelot whose backing array has spare capacity: `NewCamelot(Quiet("x"),
Zip())` holds three tokens in an array of four. `Lattice` writes `lattice`
into the fourth place, yet the three global tokens are unchanged and a later
`Stream` call builds its own argument list. -/
theorem base_option_set_not_mutated_witness :
    (MemCamelot.NewCamelot growslice_double Heap.empty [Quiet "x", Zip]).2.globalOptions.Valid
        (MemCamelot.NewCamelot growslice_double Heap.empty [Quiet "x", Zip]).1
    ∧ (MemCamelot.NewCamelot growslice_double Heap.empty [Quiet "x", Zip]).2.globalOptions
        = { ptr := 1, len := 3, cap := 4 }
    ∧ ((MemCamelot.NewCamelot growslice_double Heap.empty [Quiet "x", Zip]).2.Lattice
          growslice_double id
          (MemCamelot.NewCamelot growslice_double Heap.empty [Quiet "x", Zip]).1
          "a.pdf" [LatticeHelp]).1.array 1 = ["--quiet", "x", "--zip", "lattice"]
    ∧ ((MemCamelot.NewCamelot growslice_double Heap.empty [Quiet "x", Zip]).2.Stream
          growslice_double id
          ((MemCamelot.NewCamelot growslice_double Heap.empty [Quiet "x", Zip]).2.Lattice
            growslice_double id
            (MemCamelot.NewCamelot growslice_double Heap.empty [Quiet "x", Zip]).1
            "a.pdf" [LatticeHelp]).1 "b.pdf" [StreamHelp]).2
        = exec_Command "camelot"
            ((MemCamelot.NewCamelot growslice_double Heap.empty
                  [Quiet "x", Zip]).2.globalOptions.elems
                (MemCamelot.NewCamelot growslice_double Heap.empty [Quiet "x", Zip]).1
              ++ ["stream"] ++ flattenSpec [StreamHelp] ++ ["b.pdf"])
    ∧ ((MemCamelot.NewCamelot growslice_double Heap.empty [Quiet "x", Zip]).2.Stream
          growslice_double id
          ((MemCamelot.NewCamelot growslice_double Heap.empty [Quiet "x", Zip]).2.Lattice
            growslice_double id
            (MemCamelot.NewCamelot growslice_double Heap.empty [Quiet "x", Zip]).1
            "a.pdf" [LatticeHelp]).1 "b.pdf" [StreamHelp]).2
        = exec_Command "camelot" ["--quiet", "x", "--zip", "stream", "--help", "b.pdf"] :=
  ⟨(MemCamelot.NewCamelot_spec growslice_double Heap.empty [Quiet "x", Zip]).1, by decide,
    by decide,
    (base_option_set_not_mutated growslice_double id
      (MemCamelot.NewCamelot growslice_double Heap.empty [Quiet "x", Zip]).1
      (MemCamelot.NewCamelot growslice_double Heap.empty [Quiet "x", Zip]).2
      "a.pdf" "b.pdf" [LatticeHelp] [StreamHelp]
      (MemCamelot.NewCamelot_spec growslice_double Heap.empty [Quiet "x", Zip]).1).2.2.1,
    by decide⟩

/-- C16: building is deterministic: two Camelot values built by `NewCamelot`
from the same list of global options, in whatever memory and with whatever
capacities the runtime chooses, build for the same input file and the same
sub-operation options identical argument lists, token for token, in `Lattice`,
in `Stream` and in `Exec`: the list the builder on values gives. -/
theorem building_is_deterministic {R : Type} (CombinedOutput : Cmd → R)
    (grow1 grow2 : Nat → Nat → Nat) (h1 h2 : Heap) (os : List GlobalOption) (f : String)
    (ls : List (Unit → List String)) :
    (((MemCamelot.NewCamelot grow1 h1 os).2.Lattice grow1 CombinedOutput
          (MemCamelot.NewCamelot grow1 h1 os).1 f ls).2
        = ((MemCamelot.NewCamelot grow2 h2 os).2.Lattice grow2 CombinedOutput
          (MemCamelot.NewCamelot grow2 h2 os).1 f ls).2
      ∧ ((MemCamelot.NewCamelot grow1 h1 os).2.Stream grow1 CombinedOutput
          (MemCamelot.NewCamelot grow1 h1 os).1 f ls).2
        = ((MemCamelot.NewCamelot grow2 h2 os).2.Stream grow2 CombinedOutput
          (MemCamelot.NewCamelot grow2 h2 os).1 f ls).2
      ∧ ((MemCamelot.NewCamelot grow1 h1 os).2.Exec CombinedOutput
          (MemCamelot.NewCamelot grow1 h1 os).1).2
        = ((MemCamelot.NewCamelot grow2 h2 os).2.Exec CombinedOutput
          (MemCamelot.NewCamelot grow2 h2 os).1).2)
    ∧ (((MemCamelot.NewCamelot grow1 h1 os).2.Lattice grow1 CombinedOutput
          (MemCamelot.NewCamelot grow1 h1 os).1 f ls).2
        = (NewCamelot os).Lattice CombinedOutput f ls
      ∧ ((MemCamelot.NewCamelot grow1 h1 os).2.Stream grow1 CombinedOutput
          (MemCamelot.NewCamelot grow1 h1 os).1 f ls).2
        = (NewCamelot os).Stream CombinedOutput f ls
      ∧ ((MemCamelot.NewCamelot grow1 h1 os).2.Exec CombinedOutput
          (MemCamelot.NewCamelot grow1 h1 os).1).2
        = (NewCamelot os).Exec CombinedOutput)
    ∧ ((NewCamelot os).Lattice CombinedOutput f ls
        = CombinedOutput (exec_Command "camelot"
            (flattenSpec os ++ ["lattice"] ++ flattenSpec ls ++ [f]))
      ∧ (NewCamelot os).Stream CombinedOutput f ls
        = CombinedOutput (exec_Command "camelot"
            (flattenSpec os ++ ["stream"] ++ flattenSpec ls ++ [f]))
      ∧ (NewCamelot os).Exec CombinedOutput
        = CombinedOutput (exec_Command "camelot" (flattenSpec os))) := by
  have key : ∀ (grow : Nat → Nat → Nat) (h : Heap),
      ((MemCamelot.NewCamelot grow h os).2.Lattice grow CombinedOutput
          (MemCamelot.NewCamelot grow h os).1 f ls).2
        = (NewCamelot os).Lattice CombinedOutput f ls
      ∧ ((MemCamelot.NewCamelot grow h os).2.Stream grow CombinedOutput
          (MemCamelot.NewCamelot grow h os).1 f ls).2
        = (NewCamelot os).Stream CombinedOutput f ls
      ∧ ((MemCamelot.NewCamelot grow h os).2.Exec CombinedOutput
          (MemCamelot.NewCamelot grow h os).1).2
        = (NewCamelot os).Exec CombinedOutput := by
    intro grow h
    obtain ⟨v, e⟩ := MemCamelot.NewCamelot_spec grow h os
    have hpure : ({ globalOptions := flattenSpec os } : Camelot) = NewCamelot os := by
      simp [NewCamelot, foldl_append_eq]
    refine ⟨?_, ?_, ?_⟩
    · rw [(MemCamelot.Lattice_spec grow CombinedOutput _ _ f ls v).1, e, hpure]
    · rw [(MemCamelot.Stream_spec grow CombinedOutput _ _ f ls v).1, e, hpure]
    · simp only [MemCamelot.Exec, Camelot.Exec, e, NewCamelot_globalOptions]
  obtain ⟨l1, s1, x1⟩ := key grow1 h1
  obtain ⟨l2, s2, x2⟩ := key grow2 h2
  refine ⟨⟨l1.trans l2.symm, s1.trans s2.symm, x1.trans x2.symm⟩, ⟨l1, s1, x1⟩, ?_, ?_, ?_⟩
  · simp [Camelot.Lattice, foldl_append_eq, NewCamelot_globalOptions]
  · simp [Camelot.Stream, foldl_append_eq, NewCamelot_globalOptions]
  · simp [Camelot.Exec, NewCamelot_globalOptions]

end Camelotgo
